import Mathlib

/- Shallow embedding of the projekt202 remix-stack sources: the express
   server middleware chain (src/unnamed/part_000) and the remix.init
   scaffolding script (src/remix.init/index.js).  Pure fragments of the
   JavaScript are translated into executable Lean definitions; external
   effects (the file system, random bytes, interactive answers, child
   processes) are passed in explicitly as data. -/
/- App name derivation (remix.init/index.js, lines 125-129):
   APP_NAME = DIR_NAME.replace(/[^a-zA-Z0-9-_]/g, '-').
   The regex replaces, globally, every character outside the class with
   a hyphen.  path.basename is an external library call, so the
   directory base name is the input here. -/
def isAllowedAppNameChar (c : Char) : Bool :=
  (decide ('a' ≤ c) && decide (c ≤ 'z')) ||
  (decide ('A' ≤ c) && decide (c ≤ 'Z')) ||
  (decide ('0' ≤ c) && decide (c ≤ '9')) ||
  c == '-' || c == '_'

def appNameReplaceChars : List Char → List Char
  | [] => []
  | c :: rest =>
    (if isAllowedAppNameChar c then c else '-') :: appNameReplaceChars rest

def deriveAppName (dirName : String) : String :=
  String.mk (appNameReplaceChars dirName.data)

/- Package manager command sets (remix.init/index.js, lines 37-69).
   getPackageManagerVersion shells out to the package manager, so the
   pnpm version is an explicit argument here.  In the JavaScript, the
   pnpm and yarn variants simply do not define an install member
   (accessing it yields undefined); that absence is modelled with
   Option. -/
structure SemVer where
  major : Nat
  minor : Nat
  patch : Nat

def SemVer.ltv (a b : SemVer) : Bool :=
  decide (a.major < b.major) ||
  (decide (a.major = b.major) &&
    (decide (a.minor < b.minor) ||
      (decide (a.minor = b.minor) && decide (a.patch < b.patch))))

def SemVer.gev (a b : SemVer) : Bool :=
  !(SemVer.ltv a b)

inductive PackageManager
  | npm
  | pnpm
  | yarn

structure PMCommandSet where
  exec : String
  lockfile : String
  run : String → Option String → String
  install : Option (String → Option String → String)

def getPackageManagerCommand (pm : PackageManager) (pnpmVersion : SemVer) :
    PMCommandSet :=
  match pm with
  | PackageManager.npm =>
    { exec := "npx"
      lockfile := "package-lock.json"
      run := fun script args =>
        "npm run " ++ script ++ " " ++
          (match args with | some a => "-- " ++ a | none => "")
      install := some (fun name args =>
        "npm install " ++
          (match args with | some a => a | none => "") ++ " " ++ name) }
  | PackageManager.pnpm =>
    let includeDoubleDashBeforeArgs := SemVer.ltv pnpmVersion ⟨7, 0, 0⟩
    let useExec := SemVer.gev pnpmVersion ⟨6, 13, 0⟩
    { exec := if useExec then "pnpm exec" else "pnpx"
      lockfile := "pnpm-lock.yaml"
      run := fun script args =>
        if includeDoubleDashBeforeArgs then
          "pnpm run " ++ script ++ " " ++
            (match args with | some a => "-- " ++ a | none => "")
        else
          "pnpm run " ++ script ++ " " ++
            (match args with | some a => a | none => "")
      install := none }
  | PackageManager.yarn =>
    { exec := "yarn"
      lockfile := "yarn.lock"
      run := fun script args =>
        "yarn " ++ script ++ " " ++
          (match args with | some a => a | none => "")
      install := none }

/- Question/answer flow error recovery (remix.init/index.js, lines
   193-199).  The catch handler around askSetupQuestions inspects a
   single field of the rejection value, error.isTtyError, which
   inquirer sets when a prompt could not be rendered in the current
   (non interactive) environment; the handler swallows exactly those
   errors and rethrows every other rejection.  A prompt cancellation is
   a distinct failure which does not carry the isTtyError flag. -/
structure FlowError where
  name : String
  isTtyError : Bool
deriving DecidableEq

def qaCatchHandler (e : FlowError) : Except FlowError Unit :=
  if e.isTtyError then Except.ok () else Except.error e

def runQAWithRecovery (qaOutcome : Except FlowError Unit) :
    Except FlowError Unit :=
  match qaOutcome with
  | Except.ok u => Except.ok u
  | Except.error e => qaCatchHandler e

/- Interactive setup flow (remix.init/index.js, lines 202-259),
   projected to its trace of prompts and side effects as a function of
   the recorded answers.  The single inquirer.prompt call at the top
   asks both the amplify question and the cli question, with no when
   condition, so both prompts are always shown; only the commands are
   conditional on the answers.  Command invocations are recorded
   symbolically (execInProject of pm.install / npx amplify commands /
   pm.run), console.log output is not modelled. -/
structure SetupAnswers where
  amplify : Bool
  cli : Bool
  validate : Bool

inductive SetupEvent
  | prompt (name : String)
  | installGlobalCli
  | installLocalPackage
  | amplifyConfigure
  | amplifyInit
  | runValidate
deriving DecidableEq

def isExecEvent : SetupEvent → Bool
  | SetupEvent.prompt _ => false
  | _ => true

def askSetupQuestionsTrace (a : SetupAnswers) : List SetupEvent :=
  [SetupEvent.prompt "amplify", SetupEvent.prompt "cli"]
  ++ (if a.amplify then
        (if a.cli then [SetupEvent.installGlobalCli] else [])
        ++ [SetupEvent.installLocalPackage, SetupEvent.amplifyConfigure,
            SetupEvent.amplifyInit]
      else [])
  ++ [SetupEvent.prompt "validate"]
  ++ (if a.validate then [SetupEvent.runValidate] else [])

/- Trailing slash middleware (src/unnamed/part_000, lines 13-19).
   If the request path ends in a separator and is longer than one
   character, the server answers a 301 redirect to
   path.slice(0, -1).replace(/\/+/g, '/') plus the original query
   string (req.url.slice(req.path.length)).  The regex replace is
   embedded as a left-to-right scan that keeps one separator per run;
   the query string is an explicit argument. -/
def endsWithSlash (p : String) : Bool :=
  p.data.getLast? == some '/'

def collapseAux : Bool → List Char → List Char
  | _, [] => []
  | prevSlash, c :: rest =>
    if c = '/' then
      if prevSlash then collapseAux true rest
      else c :: collapseAux true rest
    else c :: collapseAux false rest

def collapseSlashes (l : List Char) : List Char :=
  collapseAux false l

def trailingSlashMiddleware (path query : String) : Option (Nat × String) :=
  if endsWithSlash path && decide (1 < path.length) then
    some (301, String.mk (collapseSlashes path.data.dropLast) ++ query)
  else none

/- Spec-side formulation of run collapsing, written as a right fold:
   a separator is dropped exactly when the already-collapsed remainder
   starts with a separator. -/
def headIsSlash : List Char → Bool
  | [] => false
  | c :: _ => c == '/'

def specCollapse : List Char → List Char
  | [] => []
  | c :: rest =>
    if c = '/' then
      if headIsSlash (specCollapse rest) then specCollapse rest
      else c :: specCollapse rest
    else c :: specCollapse rest

def dropLeadingSlash (l : List Char) : List Char :=
  match l with
  | [] => []
  | c :: t => if c = '/' then t else c :: t

/- Replay gate and middleware order (src/unnamed/part_000).  The
   environment variables are read from process.env; JavaScript
   truthiness makes an unset or empty variable falsy.  The app handler,
   compression, morgan and the two express.static layers are external;
   static lookup is abstracted as a partial map from request paths to
   bodies, and the registration order of the middleware chain (slash
   normalization, then the replay gate, then static serving, then the
   app) is the match order of handleRequest. -/
structure RegionEnv where
  FLY_REGION : Option String
  PRIMARY_REGION : Option String

def truthyEnvVar : Option String → Bool
  | none => false
  | some s => !(s == "")

def isMethodReplayable (method : String) : Bool :=
  !(["GET", "OPTIONS", "HEAD"].contains method)

def isReadOnlyRegion (env : RegionEnv) : Bool :=
  truthyEnvVar env.FLY_REGION && truthyEnvVar env.PRIMARY_REGION &&
    !(env.FLY_REGION == env.PRIMARY_REGION)

def getReplaceResponse (env : RegionEnv) (method : String) :
    Option (Nat × String) :=
  if isMethodReplayable method && isReadOnlyRegion env then
    some (409, "region=" ++ env.PRIMARY_REGION.getD "")
  else none

structure HttpReq where
  method : String
  path : String
  query : String

inductive HttpResponse
  | redirect (status : Nat) (location : String)
  | replay (status : Nat) (flyReplayValue : String)
  | staticFile (body : String)
  | fromApp
deriving DecidableEq

def handleRequest (env : RegionEnv) (staticFiles : String → Option String)
    (req : HttpReq) : HttpResponse :=
  match trailingSlashMiddleware req.path req.query with
  | some (status, loc) => HttpResponse.redirect status loc
  | none =>
    match getReplaceResponse env req.method with
    | some (status, h) => HttpResponse.replay status h
    | none =>
      match staticFiles req.path with
      | some body => HttpResponse.staticFile body
      | none => HttpResponse.fromApp

/- Spec-side region condition: both region variables set to a nonempty
   value and different. -/
def regionsSetAndDiffer (env : RegionEnv) : Prop :=
  ∃ f p, env.FLY_REGION = some f ∧ env.PRIMARY_REGION = some p ∧
    f ≠ "" ∧ p ≠ "" ∧ f ≠ p

/- Session secret generation and substitution (remix.init/index.js,
   line 71 and lines 149-152).  getRandomString(length) is
   crypto.randomBytes(length).toString('hex'): the random bytes come
   from the OS and are passed in here as a list of byte values, hex
   encoding is embedded directly.  The env file is modelled as its list
   of lines; env.replace(/^SESSION_SECRET=.*$/m, ...) with a non-global
   regex rewrites the first line starting with SESSION_SECRET= (the
   dot matches no newline, so .*$ always covers the rest of that line)
   and leaves every other line untouched. -/
def hexChars : List Char :=
  "0123456789abcdef".data

def hexDigitChar (n : Nat) : Char :=
  hexChars.getD n '0'

def byteToHex (b : Nat) : List Char :=
  [hexDigitChar (b / 16), hexDigitChar (b % 16)]

def bytesToHex : List Nat → List Char
  | [] => []
  | b :: rest => byteToHex b ++ bytesToHex rest

def getRandomString (randomBytes : List Nat) : String :=
  String.mk (bytesToHex randomBytes)

def sessionSecretAssign (l : String) : Bool :=
  "SESSION_SECRET=".data.isPrefixOf l.data

def newEnvLines (secret : String) : List String → List String
  | [] => []
  | l :: rest =>
    if sessionSecretAssign l then
      ("SESSION_SECRET=\"" ++ secret ++ "\"") :: rest
    else l :: newEnvLines secret rest

/- Package manifest rewrite (remix.init/index.js, lines 82-104).
   The manifest content is modelled by its name, devDependencies and
   scripts maps as association lists in file order.  The destructuring
   scripts: { typecheck, validate, ...scripts } reads the two named
   entries and keeps the rest; the typed branch re-adds both at the
   end, the plain branch re-adds only validate, with the first
   occurrence of the substring " typecheck" removed from its value
   (String.prototype.replace with a plain string pattern replaces the
   first occurrence only).  validate.replace throws when there is no
   validate script, which Option models as none. -/
structure PackageJsonContent where
  name : String
  devDependencies : List (String × String)
  scripts : List (String × String)

def lookupKey (k : String) (l : List (String × String)) : Option String :=
  (l.find? (fun kv => kv.1 == k)).map (fun kv => kv.2)

def removeUnusedDependencies (deps : List (String × String))
    (unused : List String) : List (String × String) :=
  deps.filter (fun kv => !(unused.contains kv.1))

def optEntry (k : String) : Option String → List (String × String)
  | some v => [(k, v)]
  | none => []

def replaceFirstSub (pat : List Char) : List Char → List Char
  | [] => []
  | c :: rest =>
    if pat.isPrefixOf (c :: rest) then (c :: rest).drop pat.length
    else c :: replaceFirstSub pat rest

def stripTypecheckCall (v : String) : String :=
  String.mk (replaceFirstSub " typecheck".data v.data)

def restScripts (scripts : List (String × String)) :
    List (String × String) :=
  scripts.filter (fun kv => !(kv.1 == "typecheck") && !(kv.1 == "validate"))

def updatePackageJson (appName : String) (isTypeScript : Bool)
    (pj : PackageJsonContent) : Option PackageJsonContent :=
  let typecheck := lookupKey "typecheck" pj.scripts
  let validate := lookupKey "validate" pj.scripts
  if isTypeScript then
    some { name := appName
           devDependencies := pj.devDependencies
           scripts := restScripts pj.scripts
             ++ optEntry "typecheck" typecheck
             ++ optEntry "validate" validate }
  else
    match validate with
    | none => none
    | some v =>
      some { name := appName
             devDependencies :=
               removeUnusedDependencies pj.devDependencies ["ts-node"]
             scripts := restScripts pj.scripts
               ++ [("validate", stripTypecheckCall v)] }

/- Concrete manifest used to witness the rewrite. -/
def pjExample : PackageJsonContent :=
  { name := "remix-stack-template"
    devDependencies := [("ts-node", "^10.0.0"), ("vitest", "^0.28.0")]
    scripts := [("build", "remix build"), ("typecheck", "tsc -b"),
                ("validate", "run-p lint typecheck test")] }

/- Batched file operations (remix.init/index.js, lines 156-191).  The
   file system is a map from paths to contents; fs.writeFile always
   overwrites, fs.copyFile reads the source and overwrites the
   destination (failing when the source is absent), fs.rm without force
   deletes and fails with ENOENT when the target is absent (for this
   model a recursive directory removal behaves the same).  Promise.all
   starts every operation and a rejection cancels none of its siblings,
   so the batch is a fold that applies every operation and collects the
   failed ones; the surrounding try/catch with an empty catch block
   discards the failures, logs nothing and falls through to the
   question flow.  path.join is external and modelled as string
   concatenation of the root with the relative path. -/
def FsState : Type := String → Option String

def updFS (fs : FsState) (p : String) (v : Option String) : FsState :=
  fun q => if q = p then v else fs q

inductive FileOp
  | write (p : String) (content : String)
  | copy (src dst : String)
  | remove (p : String)
deriving DecidableEq

def applyOp (fs : FsState) : FileOp → FsState × Bool
  | FileOp.write p c => (updFS fs p (some c), true)
  | FileOp.copy src dst =>
    match fs src with
    | some c => (updFS fs dst (some c), true)
    | none => (fs, false)
  | FileOp.remove p =>
    match fs p with
    | some _ => (updFS fs p none, true)
    | none => (fs, false)

def runOps : List FileOp → FsState → FsState × List FileOp
  | [], fs => (fs, [])
  | op :: rest, fs =>
    let r := applyOp fs op
    let rr := runOps rest r.1
    (rr.1, (if r.2 then [] else [op]) ++ rr.2)

inductive AfterBatch
  | proceedToQuestionFlow
deriving DecidableEq

def scaffoldBatchStep (ops : List FileOp) (fs : FsState) :
    FsState × AfterBatch × List String :=
  ((runOps ops fs).1, AfterBatch.proceedToQuestionFlow, [])

def scaffoldFileOps (root : String) (isTypeScript : Bool)
    (newEnvContent newReadme pkgManifest newDeployYml newRemixCfg
      newVitestCfg : String) : List FileOp :=
  [FileOp.write (root ++ "/.env") newEnvContent,
   FileOp.write (root ++ "/README.md") newReadme,
   FileOp.write (root ++ "/package.json") pkgManifest,
   FileOp.copy (root ++ "/remix.init/gitignore") (root ++ "/.gitignore"),
   FileOp.remove (root ++ "/.github/ISSUE_TEMPLATE"),
   FileOp.remove (root ++ "/.github/dependabot.yml"),
   FileOp.remove (root ++ "/.github/PULL_REQUEST_TEMPLATE.md")]
  ++ (if isTypeScript then [] else
    [FileOp.write (root ++ "/.github/workflows/deploy.yml") newDeployYml,
     FileOp.write (root ++ "/remix.config.js") newRemixCfg,
     FileOp.write (root ++ "/vitest.config.js") newVitestCfg])

def touchesOp : FileOp → String → Bool
  | FileOp.write p _, q => p == q
  | FileOp.copy _ dst, q => dst == q
  | FileOp.remove p, q => p == q

def copySrcsOf : List FileOp → List String
  | [] => []
  | FileOp.copy src _ :: rest => src :: copySrcsOf rest
  | FileOp.write _ _ :: rest => copySrcsOf rest
  | FileOp.remove _ :: rest => copySrcsOf rest

def resolvedEffects (ops : List FileOp) (fs0 : FsState) :
    List (String × Option String) :=
  match ops with
  | [] => []
  | FileOp.write p c :: rest => (p, some c) :: resolvedEffects rest fs0
  | FileOp.copy src dst :: rest =>
    (match fs0 src with
     | some c => [(dst, some c)]
     | none => []) ++ resolvedEffects rest fs0
  | FileOp.remove p :: rest => (p, none) :: resolvedEffects rest fs0

def applyAssigns (l : List (String × Option String)) (fs : FsState) :
    FsState :=
  l.foldl (fun a pr => updFS a pr.1 pr.2) fs

def lastAssign (l : List (String × Option String)) (q : String) :
    Option (Option String) :=
  (l.reverse.find? (fun pr => pr.1 == q)).map (fun pr => pr.2)

def emptyFS : FsState := fun _ => none

/-- C9: for every directory base name, the derived app name has the same
length and replaces exactly the characters outside [A-Za-z0-9-_] by a
hyphen; in particular the base name My Cool App! yields My-Cool-App-. -/
theorem c9_app_name_character_map :
    (∀ s : String, (deriveAppName s).length = s.length ∧
      ∀ i : Nat, (deriveAppName s).data[i]? =
        (s.data[i]?).map
          (fun c => if isAllowedAppNameChar c then c else '-'))
    ∧ deriveAppName "My Cool App!" = "My-Cool-App-" := by
  have hmap : ∀ l : List Char, appNameReplaceChars l =
      l.map (fun c => if isAllowedAppNameChar c then c else '-') := by
    intro l
    induction l with
    | nil => rfl
    | cons c rest ih => simp [appNameReplaceChars, ih]
  constructor
  · intro s
    constructor
    · show (appNameReplaceChars s.data).length = s.data.length
      rw [hmap]
      exact List.length_map _ _
    · intro i
      show (appNameReplaceChars s.data)[i]? = _
      rw [hmap]
      exact List.getElem?_map _ _ _
  · decide

/-- C3: the claim states that for each of npm, pnpm, yarn the returned
command set carries an exec command, a lockfile name, a run builder and
an install builder.  In the source only the npm variant defines the
install member; the pnpm and yarn variants omit it (undefined in the
JavaScript), so the interactive flow's pm.install calls would throw for
those managers. -/
theorem c3_install_member_missing_for_pnpm_and_yarn :
    (getPackageManagerCommand PackageManager.yarn ⟨0, 0, 0⟩).install = none
    ∧ (getPackageManagerCommand PackageManager.pnpm ⟨7, 0, 0⟩).install = none
    ∧ (getPackageManagerCommand PackageManager.pnpm ⟨6, 13, 0⟩).install = none
    ∧ (getPackageManagerCommand PackageManager.npm ⟨0, 0, 0⟩).install.isSome
        = true := by
  refine ⟨rfl, rfl, rfl, rfl⟩

/-- C4 counterexample: a prompt cancellation rejects the flow with an
error that does not carry the isTtyError flag, and the initializer's
catch handler rethrows it instead of treating it as silent success. -/
theorem c4_cancellation_error_propagates :
    runQAWithRecovery
        (Except.error { name := "cancellation", isTtyError := false })
      = Except.error { name := "cancellation", isTtyError := false }
    ∧ (Except.error { name := "cancellation", isTtyError := false }
        : Except FlowError Unit) ≠ Except.ok () := by
  exact ⟨rfl, fun h => Except.noConfusion h⟩

/-- C4 amended: only a failure flagged as a non-interactive-terminal
error (isTtyError) is treated as silent success; every other failure of
the question/answer flow, a cancellation included, propagates out of
the initializer, and a successful flow stays successful. -/
theorem c4_only_tty_errors_swallowed :
    (∀ e : FlowError, e.isTtyError = true →
      runQAWithRecovery (Except.error e) = Except.ok ())
    ∧ (∀ e : FlowError, e.isTtyError = false →
      runQAWithRecovery (Except.error e) = Except.error e)
    ∧ runQAWithRecovery (Except.ok ()) = Except.ok () := by
  refine ⟨?_, ?_, rfl⟩
  · intro e he
    simp [runQAWithRecovery, qaCatchHandler, he]
  · intro e he
    simp [runQAWithRecovery, qaCatchHandler, he]

/-- C4 witness: the amended theorem evaluated at a tty error and at a
cancellation error. -/
theorem c4_only_tty_errors_swallowed_witness :
    runQAWithRecovery
        (Except.error { name := "tty", isTtyError := true })
      = Except.ok ()
    ∧ runQAWithRecovery
        (Except.error { name := "other", isTtyError := false })
      = Except.error { name := "other", isTtyError := false } :=
  ⟨c4_only_tty_errors_swallowed.1 { name := "tty", isTtyError := true } rfl,
   c4_only_tty_errors_swallowed.2.1 { name := "other", isTtyError := false }
     rfl⟩

/-- C6 counterexample: the CLI-install question is asked even when the
amplify question is answered no, because both questions are passed to a
single unconditional prompt call. -/
theorem c6_cli_prompt_shown_despite_amplify_no :
    SetupEvent.prompt "cli" ∈
      askSetupQuestionsTrace { amplify := false, cli := false, validate := false } := by
  decide

/-- C6 amended: the CLI-install question is always asked, right after
the amplify question and regardless of its answer; the global CLI
install runs exactly when both questions were answered yes, and when
the amplify question is answered no, no install or provisioning command
runs before the validation question. -/
theorem c6_cli_prompt_unconditional_commands_conditional
    (a : SetupAnswers) :
    SetupEvent.prompt "cli" ∈ askSetupQuestionsTrace a
    ∧ (SetupEvent.installGlobalCli ∈ askSetupQuestionsTrace a ↔
        (a.amplify = true ∧ a.cli = true))
    ∧ (a.amplify = false →
        ((askSetupQuestionsTrace a).takeWhile
            (fun e => !(e == SetupEvent.prompt "validate"))).all
          (fun e => !(isExecEvent e)) = true) := by
  obtain ⟨am, cl, va⟩ := a
  cases am <;> cases cl <;> cases va <;> refine ⟨by decide, by decide, ?_⟩ <;>
    intro h <;> first | decide | exact absurd h (by decide)

/-- C6 witness: the amended theorem evaluated at the answer record that
declines amplify, with the no-commands-before-validation hypothesis
discharged. -/
theorem c6_cli_prompt_unconditional_witness :
    SetupEvent.prompt "cli" ∈
      askSetupQuestionsTrace { amplify := false, cli := true, validate := true }
    ∧ ((askSetupQuestionsTrace
          { amplify := false, cli := true, validate := true }).takeWhile
            (fun e => !(e == SetupEvent.prompt "validate"))).all
          (fun e => !(isExecEvent e)) = true :=
  ⟨(c6_cli_prompt_unconditional_commands_conditional
      { amplify := false, cli := true, validate := true }).1,
   (c6_cli_prompt_unconditional_commands_conditional
      { amplify := false, cli := true, validate := true }).2.2 rfl⟩

lemma collapseAux_eq_specCollapse :
    ∀ l : List Char,
      collapseAux false l = specCollapse l ∧
      collapseAux true l = dropLeadingSlash (specCollapse l) := by
  intro l
  induction l with
  | nil => exact ⟨rfl, rfl⟩
  | cons c rest ih =>
    obtain ⟨ihF, ihT⟩ := ih
    by_cases hc : c = '/'
    · subst hc
      have hF : collapseAux false ('/' :: rest) =
          '/' :: collapseAux true rest := by
        simp [collapseAux]
      have hT : collapseAux true ('/' :: rest) = collapseAux true rest := by
        simp [collapseAux]
      have hS : specCollapse ('/' :: rest) =
          if headIsSlash (specCollapse rest) then specCollapse rest
          else '/' :: specCollapse rest := by
        simp [specCollapse]
      rw [hF, hT, hS, ihT]
      cases hacc : specCollapse rest with
      | nil => simp [dropLeadingSlash, headIsSlash]
      | cons a t =>
        by_cases ha : a = '/'
        · subst ha
          simp [dropLeadingSlash, headIsSlash]
        · simp [dropLeadingSlash, headIsSlash, ha]
    · have hF : collapseAux false (c :: rest) =
          c :: collapseAux false rest := by
        simp [collapseAux, hc]
      have hT : collapseAux true (c :: rest) =
          c :: collapseAux false rest := by
        simp [collapseAux, hc]
      have hS : specCollapse (c :: rest) = c :: specCollapse rest := by
        simp [specCollapse, hc]
      rw [hF, hT, hS, ihF]
      exact ⟨rfl, by simp [dropLeadingSlash, hc]⟩

lemma isMethodReplayable_iff (m : String) :
    isMethodReplayable m = true ↔
      m ∉ (["GET", "HEAD", "OPTIONS"] : List String) := by
  simp [isMethodReplayable, List.contains]
  tauto

lemma isReadOnlyRegion_iff (env : RegionEnv) :
    isReadOnlyRegion env = true ↔ regionsSetAndDiffer env := by
  obtain ⟨f?, p?⟩ := env
  cases f? with
  | none =>
    simp [isReadOnlyRegion, truthyEnvVar, regionsSetAndDiffer]
  | some f =>
    cases p? with
    | none =>
      simp [isReadOnlyRegion, truthyEnvVar, regionsSetAndDiffer]
    | some p =>
      simp [isReadOnlyRegion, truthyEnvVar, regionsSetAndDiffer]
      tauto

/-- C2 counterexample: a single request for /posts// is redirected to
/posts/ and not to /posts, because the code removes only one trailing
separator (slice(0, -1)) before collapsing runs; the collapsed result
keeps one trailing separator whenever the path ended in two or more. -/
theorem c2_double_trailing_slash_redirect_target :
    trailingSlashMiddleware "/posts//" "" = some (301, "/posts/")
    ∧ trailingSlashMiddleware "/posts//" "" ≠ some (301, "/posts") := by
  constructor
  · decide
  · decide

/-- C2 amended: for every request path of length greater than 1 that
ends in a separator, the gate responds with a 301 redirect whose target
is the path with its final separator removed and every run of repeated
separators collapsed to one, with the original query string appended
verbatim; /posts/?page=2 is redirected to /posts?page=2, while /posts//
is redirected to /posts/ (a second request then reaches /posts). -/
theorem c2_redirect_drops_one_separator_and_collapses
    (path query : String)
    (hslash : endsWithSlash path = true)
    (hlen : 1 < path.length) :
    trailingSlashMiddleware path query =
      some (301, String.mk (specCollapse path.data.dropLast) ++ query) := by
  unfold trailingSlashMiddleware
  rw [hslash]
  simp only [collapseSlashes, (collapseAux_eq_specCollapse path.data.dropLast).1]
  simp [hlen]

/-- C2 witness: the amended theorem evaluated at the request /posts/
with query string ?page=2. -/
theorem c2_redirect_drops_one_separator_witness :
    endsWithSlash "/posts/" = true
    ∧ 1 < ("/posts/" : String).length
    ∧ trailingSlashMiddleware "/posts/" "?page=2" =
        some (301, "/posts?page=2") := by
  have h := c2_redirect_drops_one_separator_and_collapses "/posts/" "?page=2"
    (by decide) (by decide)
  refine ⟨by decide, by decide, ?_⟩
  rw [h]
  decide

/-- C1: the replay gate (getReplaceResponse) fires, with status 409 and
a fly-replay value naming the primary region, if and only if the
request method is none of GET, HEAD, OPTIONS and both region variables
are set to nonempty values that differ; in every other case it returns
none and the request falls through unchanged to the layers behind it,
and when it fires the response is produced before static serving is
consulted (the result is the replay response for every static file
map). -/
theorem c1_replay_gate_iff_and_precedes_static
    (env : RegionEnv) (req : HttpReq) :
    ((getReplaceResponse env req.method).isSome = true ↔
      (req.method ∉ (["GET", "HEAD", "OPTIONS"] : List String) ∧
        regionsSetAndDiffer env))
    ∧ (∀ p, env.PRIMARY_REGION = some p →
        ∀ r, getReplaceResponse env req.method = some r →
          r = (409, "region=" ++ p))
    ∧ (∀ staticFiles : String → Option String,
        trailingSlashMiddleware req.path req.query = none →
        (getReplaceResponse env req.method).isSome = true →
        handleRequest env staticFiles req =
          HttpResponse.replay 409 ("region=" ++ env.PRIMARY_REGION.getD ""))
    ∧ (∀ staticFiles : String → Option String,
        trailingSlashMiddleware req.path req.query = none →
        getReplaceResponse env req.method = none →
        handleRequest env staticFiles req =
          (match staticFiles req.path with
           | some body => HttpResponse.staticFile body
           | none => HttpResponse.fromApp)) := by
  refine ⟨?_, ?_, ?_, ?_⟩
  · rw [← isMethodReplayable_iff, ← isReadOnlyRegion_iff]
    unfold getReplaceResponse
    by_cases hc : (isMethodReplayable req.method && isReadOnlyRegion env) = true
    · simp only [hc, if_pos]
      simp only [Option.isSome_some, true_iff]
      exact ⟨(Bool.and_eq_true _ _).mp hc |>.1, (Bool.and_eq_true _ _).mp hc |>.2⟩
    · simp only [hc, if_neg, Bool.not_eq_true]
      simp only [Bool.and_eq_true] at hc
      simp only [Option.isSome_none]
      constructor
      · intro hfalse
        exact Bool.noConfusion hfalse
      · intro hboth
        exact absurd ⟨hboth.1, hboth.2⟩ hc
  · intro p hp r hr
    unfold getReplaceResponse at hr
    by_cases hc : (isMethodReplayable req.method && isReadOnlyRegion env) = true
    · rw [if_pos hc] at hr
      cases hr
      rw [hp]
      rfl
    · rw [if_neg hc] at hr
      cases hr
  · intro staticFiles hs hsome
    unfold handleRequest
    rw [hs]
    unfold getReplaceResponse at hsome ⊢
    by_cases hc : (isMethodReplayable req.method && isReadOnlyRegion env) = true
    · rw [if_pos hc]
    · rw [if_neg hc] at hsome
      exact absurd hsome (by simp)
  · intro staticFiles hs hnone
    unfold handleRequest
    rw [hs, hnone]

/-- C1 witness: a POST request for /api/widgets with current region lhr
and primary region iad is answered 409 with fly-replay region=iad,
independently of the static file map. -/
theorem c1_replay_gate_witness :
    (getReplaceResponse ⟨some "lhr", some "iad"⟩ "POST").isSome = true
    ∧ handleRequest ⟨some "lhr", some "iad"⟩ (fun _ => none)
        ⟨"POST", "/api/widgets", ""⟩ =
      HttpResponse.replay 409 "region=iad" := by
  have h := c1_replay_gate_iff_and_precedes_static ⟨some "lhr", some "iad"⟩
    ⟨"POST", "/api/widgets", ""⟩
  have hsome : (getReplaceResponse ⟨some "lhr", some "iad"⟩ "POST").isSome
      = true :=
    h.1.mpr ⟨by decide, "lhr", "iad", rfl, rfl, by decide, by decide, by decide⟩
  refine ⟨hsome, ?_⟩
  have h3 := h.2.2.1 (fun _ => none) (by decide) hsome
  simpa using h3

lemma bytesToHex_length (bs : List Nat) :
    (bytesToHex bs).length = 2 * bs.length := by
  induction bs with
  | nil => rfl
  | cons b rest ih =>
    show (byteToHex b ++ bytesToHex rest).length = 2 * (rest.length + 1)
    rw [List.length_append, ih]
    show 2 + 2 * rest.length = 2 * (rest.length + 1)
    omega

lemma hexDigitChar_mem (n : Nat) : hexDigitChar n ∈ hexChars := by
  unfold hexDigitChar
  by_cases h : n < hexChars.length
  · rw [List.getD_eq_getElem hexChars '0' h]
    exact List.getElem_mem h
  · rw [List.getD_eq_default hexChars '0' (le_of_not_lt h)]
    decide

lemma bytesToHex_mem (bs : List Nat) :
    ∀ c ∈ bytesToHex bs, c ∈ hexChars := by
  induction bs with
  | nil => intro c hc; cases hc
  | cons b rest ih =>
    intro c hc
    rcases List.mem_append.mp hc with h | h
    · unfold byteToHex at h
      rcases List.mem_cons.mp h with h1 | h1
      · rw [h1]; exact hexDigitChar_mem _
      · rcases List.mem_cons.mp h1 with h2 | h2
        · rw [h2]; exact hexDigitChar_mem _
        · cases h2
    · exact ih c h

/-- C7: an env file holding a SESSION_SECRET assignment line (and no
earlier such line) is rewritten so that exactly that line becomes an
assignment of a freshly generated 32-hexadecimal-character secret
(quoted, as the source template literal writes it), while every line
before and after is kept byte for byte. -/
theorem c7_session_secret_rewrite
    (bs : List Nat) (pre : List String) (l : String) (post : List String)
    (hlen : bs.length = 16)
    (hpre : ∀ l2 ∈ pre, sessionSecretAssign l2 = false)
    (hl : sessionSecretAssign l = true) :
    newEnvLines (getRandomString bs) (pre ++ l :: post) =
      pre ++ ("SESSION_SECRET=\"" ++ getRandomString bs ++ "\"") :: post
    ∧ (getRandomString bs).length = 32
    ∧ ∀ c ∈ (getRandomString bs).data, c ∈ hexChars := by
  refine ⟨?_, ?_, ?_⟩
  · induction pre with
    | nil =>
      show newEnvLines (getRandomString bs) (l :: post) = _
      unfold newEnvLines
      rw [hl]
      simp
    | cons p rest ih =>
      have hp : sessionSecretAssign p = false :=
        hpre p (List.mem_cons_self p rest)
      show newEnvLines (getRandomString bs) (p :: (rest ++ l :: post)) = _
      unfold newEnvLines
      rw [hp]
      simp only [Bool.false_eq_true, if_false, List.cons_append,
        List.cons.injEq, true_and]
      exact ih (fun l2 h2 => hpre l2 (List.mem_cons_of_mem p h2))
  · show (bytesToHex bs).length = 32
    rw [bytesToHex_length, hlen]
  · exact bytesToHex_mem bs

/-- C7 witness: the rewrite evaluated on a three-line env file with all
random bytes zero; the secret line becomes a quoted 32-character hex
string and the neighbouring lines survive unchanged. -/
theorem c7_session_secret_rewrite_witness :
    newEnvLines (getRandomString (List.replicate 16 0))
        (["PORT=3000"] ++ "SESSION_SECRET=old-secret" :: ["DATABASE_URL=db"])
      = ["PORT=3000"] ++
        ("SESSION_SECRET=\"" ++ getRandomString (List.replicate 16 0) ++ "\"")
          :: ["DATABASE_URL=db"]
    ∧ (getRandomString (List.replicate 16 0)).length = 32
    ∧ getRandomString (List.replicate 16 0) =
        "00000000000000000000000000000000" := by
  have h := c7_session_secret_rewrite (List.replicate 16 0)
    ["PORT=3000"] "SESSION_SECRET=old-secret" ["DATABASE_URL=db"]
    (by decide) (by decide) (by decide)
  exact ⟨h.1, h.2.1, by decide⟩

lemma listFindFilter {α : Type} (l : List α) (p q : α → Bool) :
    (l.filter q).find? p = l.find? (fun a => q a && p a) := by
  induction l with
  | nil => rfl
  | cons a rest ih =>
    cases hq : q a <;> cases hp : p a <;>
      simp [List.filter_cons, hq, List.find?, hp, ih]

lemma listFindAppend {α : Type} (l1 l2 : List α) (p : α → Bool) :
    (l1 ++ l2).find? p =
      (match l1.find? p with
       | some x => some x
       | none => l2.find? p) := by
  induction l1 with
  | nil => rfl
  | cons a rest ih =>
    cases hp : p a <;> simp [List.find?, hp, ih]

lemma findKeyFilterOut (k : String) (l : List (String × String))
    (q : String × String → Bool) (h : ∀ kv : String × String, kv.1 = k → q kv = false) :
    (l.filter q).find? (fun kv => kv.1 == k) = none := by
  rw [listFindFilter, List.find?_eq_none]
  intro x _ hx
  rw [Bool.and_eq_true, beq_iff_eq] at hx
  rw [h x hx.2] at hx
  exact Bool.noConfusion hx.1

lemma findKeyFilterKeep (k : String) (l : List (String × String))
    (q : String × String → Bool) (h : ∀ kv : String × String, kv.1 = k → q kv = true) :
    (l.filter q).find? (fun kv => kv.1 == k) =
      l.find? (fun kv => kv.1 == k) := by
  rw [listFindFilter]
  congr 1
  funext kv
  cases hk : (kv.1 == k) with
  | false => simp
  | true => simp [h kv (beq_iff_eq.mp hk)]

lemma findKeyOptEntryNe (k k2 : String) (h : (k == k2) = false)
    (o : Option String) :
    (optEntry k o).find? (fun kv => kv.1 == k2) = none := by
  cases o with
  | none => rfl
  | some v => simp [optEntry, List.find?, h]

lemma restScripts_out_typecheck (l : List (String × String)) :
    (restScripts l).find? (fun kv => kv.1 == "typecheck") = none := by
  apply findKeyFilterOut
  intro kv hkv
  rw [hkv]
  decide

lemma restScripts_out_validate (l : List (String × String)) :
    (restScripts l).find? (fun kv => kv.1 == "validate") = none := by
  apply findKeyFilterOut
  intro kv hkv
  rw [hkv]
  decide

lemma restScripts_keep (k : String) (l : List (String × String))
    (h1 : k ≠ "typecheck") (h2 : k ≠ "validate") :
    (restScripts l).find? (fun kv => kv.1 == k) =
      l.find? (fun kv => kv.1 == k) := by
  apply findKeyFilterKeep
  intro kv hkv
  rw [hkv]
  simp [beq_eq_false_iff_ne.mpr h1, beq_eq_false_iff_ne.mpr h2]

/-- C8: with the non-typed variant the manifest rewrite removes the
ts-node dev dependency and the typecheck script, replaces validate by a
version with the call to typecheck stripped, and keeps every other dev
dependency and script; with the typed variant the dev dependencies and
the scripts (looked up by name) are unchanged, only the package name is
set. -/
theorem c8_update_package_json (appName : String) (pj : PackageJsonContent) :
    (∀ v, lookupKey "validate" pj.scripts = some v →
      ∃ pj2, updatePackageJson appName false pj = some pj2 ∧
        pj2.name = appName ∧
        lookupKey "ts-node" pj2.devDependencies = none ∧
        (∀ k, k ≠ "ts-node" →
          lookupKey k pj2.devDependencies = lookupKey k pj.devDependencies) ∧
        lookupKey "typecheck" pj2.scripts = none ∧
        lookupKey "validate" pj2.scripts = some (stripTypecheckCall v) ∧
        (∀ k, k ≠ "typecheck" → k ≠ "validate" →
          lookupKey k pj2.scripts = lookupKey k pj.scripts))
    ∧ (∃ pj2, updatePackageJson appName true pj = some pj2 ∧
        pj2.name = appName ∧
        pj2.devDependencies = pj.devDependencies ∧
        (∀ k, lookupKey k pj2.scripts = lookupKey k pj.scripts)) := by
  constructor
  · intro v hv
    refine ⟨{ name := appName
              devDependencies :=
                removeUnusedDependencies pj.devDependencies ["ts-node"]
              scripts := restScripts pj.scripts
                ++ [("validate", stripTypecheckCall v)] },
      ?_, rfl, ?_, ?_, ?_, ?_, ?_⟩
    · simp [updatePackageJson, hv]
    · show (((removeUnusedDependencies pj.devDependencies
          ["ts-node"]).find? (fun kv => kv.1 == "ts-node")).map
            (fun kv => kv.2)) = none
      rw [show removeUnusedDependencies pj.devDependencies ["ts-node"] =
          pj.devDependencies.filter
            (fun kv => !((["ts-node"] : List String).contains kv.1)) from rfl]
      rw [findKeyFilterOut "ts-node" pj.devDependencies _
        (by intro kv hkv; rw [hkv]; decide)]
      rfl
    · intro k hk
      show (((removeUnusedDependencies pj.devDependencies
          ["ts-node"]).find? (fun kv => kv.1 == k)).map (fun kv => kv.2)) = _
      rw [show removeUnusedDependencies pj.devDependencies ["ts-node"] =
          pj.devDependencies.filter
            (fun kv => !((["ts-node"] : List String).contains kv.1)) from rfl]
      rw [findKeyFilterKeep k pj.devDependencies _
        (by
          intro kv hkv
          rw [hkv]
          have hbeq : (k == "ts-node") = false := beq_eq_false_iff_ne.mpr hk
          simp [List.contains, List.elem, hbeq])]
      rfl
    · show ((((restScripts pj.scripts
          ++ [("validate", stripTypecheckCall v)]).find?
            (fun kv => kv.1 == "typecheck"))).map (fun kv => kv.2)) = none
      rw [listFindAppend, restScripts_out_typecheck]
      simp [List.find?]
    · show ((((restScripts pj.scripts
          ++ [("validate", stripTypecheckCall v)]).find?
            (fun kv => kv.1 == "validate"))).map (fun kv => kv.2)) = _
      rw [listFindAppend, restScripts_out_validate]
      simp [List.find?]
    · intro k h1 h2
      show ((((restScripts pj.scripts
          ++ [("validate", stripTypecheckCall v)]).find?
            (fun kv => kv.1 == k))).map (fun kv => kv.2)) = _
      rw [listFindAppend, restScripts_keep k pj.scripts h1 h2]
      cases hf : pj.scripts.find? (fun kv => kv.1 == k) with
      | some x => simp [lookupKey, hf]
      | none =>
        simp [List.find?, beq_eq_false_iff_ne.mpr (Ne.symm h2), lookupKey, hf]
  · refine ⟨{ name := appName
              devDependencies := pj.devDependencies
              scripts := restScripts pj.scripts
                ++ optEntry "typecheck" (lookupKey "typecheck" pj.scripts)
                ++ optEntry "validate" (lookupKey "validate" pj.scripts) },
      ?_, rfl, rfl, ?_⟩
    · simp [updatePackageJson]
    · intro k
      by_cases hk1 : k = "typecheck"
      · subst hk1
        show (((restScripts pj.scripts
            ++ optEntry "typecheck" (lookupKey "typecheck" pj.scripts)
            ++ optEntry "validate" (lookupKey "validate" pj.scripts)).find?
              (fun kv => kv.1 == "typecheck")).map (fun kv => kv.2)) = _
        rw [listFindAppend, listFindAppend, restScripts_out_typecheck]
        cases htc : lookupKey "typecheck" pj.scripts with
        | some t =>
          simp [optEntry, List.find?, htc]
        | none =>
          rw [findKeyOptEntryNe "validate" "typecheck" (by decide)]
          simp [optEntry, lookupKey, htc]
      · by_cases hk2 : k = "validate"
        · subst hk2
          show (((restScripts pj.scripts
              ++ optEntry "typecheck" (lookupKey "typecheck" pj.scripts)
              ++ optEntry "validate" (lookupKey "validate" pj.scripts)).find?
                (fun kv => kv.1 == "validate")).map (fun kv => kv.2)) = _
          rw [listFindAppend, listFindAppend, restScripts_out_validate]
          rw [findKeyOptEntryNe "typecheck" "validate" (by decide)]
          cases hvd : lookupKey "validate" pj.scripts with
          | some t => simp [optEntry, List.find?, hvd]
          | none => simp [optEntry, lookupKey, hvd]
        · show (((restScripts pj.scripts
              ++ optEntry "typecheck" (lookupKey "typecheck" pj.scripts)
              ++ optEntry "validate" (lookupKey "validate" pj.scripts)).find?
                (fun kv => kv.1 == k)).map (fun kv => kv.2)) = _
          rw [listFindAppend, listFindAppend, restScripts_keep k pj.scripts hk1 hk2]
          rw [findKeyOptEntryNe "typecheck" k
            (beq_eq_false_iff_ne.mpr (Ne.symm hk1))]
          rw [findKeyOptEntryNe "validate" k
            (beq_eq_false_iff_ne.mpr (Ne.symm hk2))]
          cases hf : pj.scripts.find? (fun kv => kv.1 == k) with
          | some x => simp [lookupKey, hf]
          | none => simp [lookupKey, hf]

/-- C8 witness: the rewrite evaluated on a concrete manifest with the
non-typed variant; ts-node and typecheck disappear, validate loses its
typecheck call, the sibling dev dependency survives. -/
theorem c8_update_package_json_witness :
    ∃ pj2, updatePackageJson "my-app" false pjExample = some pj2 ∧
      lookupKey "ts-node" pj2.devDependencies = none ∧
      lookupKey "vitest" pj2.devDependencies = some "^0.28.0" ∧
      lookupKey "typecheck" pj2.scripts = none ∧
      lookupKey "validate" pj2.scripts = some "run-p lint test" := by
  obtain ⟨pj2, h1, _, h3, h4, h5, h6, h7⟩ :=
    (c8_update_package_json "my-app" pjExample).1 "run-p lint typecheck test"
      (by decide)
  refine ⟨pj2, h1, h3, ?_, h5, ?_⟩
  · rw [h4 "vitest" (by decide)]
    decide
  · rw [h6]
    decide

lemma updFS_same (fs : FsState) (p : String) (v : Option String) :
    updFS fs p v p = v := by
  simp [updFS]

lemma updFS_other (fs : FsState) (p : String) (v : Option String)
    (q : String) (h : q ≠ p) : updFS fs p v q = fs q := by
  simp [updFS, h]

lemma applyOp_remove_fst (fs : FsState) (p : String) :
    (applyOp fs (FileOp.remove p)).1 = updFS fs p none := by
  simp only [applyOp]
  cases h : fs p with
  | some c => rfl
  | none =>
    funext q
    by_cases hq : q = p
    · subst hq
      simp [updFS, h]
    · simp [updFS, hq]

lemma applyOp_untouched (fs : FsState) (op : FileOp) (q : String)
    (h : touchesOp op q = false) : (applyOp fs op).1 q = fs q := by
  cases op with
  | write p c =>
    have hne : q ≠ p := Ne.symm (beq_eq_false_iff_ne.mp h)
    simp [applyOp, updFS, hne]
  | copy src dst =>
    have hne : q ≠ dst := Ne.symm (beq_eq_false_iff_ne.mp h)
    simp only [applyOp]
    cases fs src with
    | some c => simp [updFS, hne]
    | none => rfl
  | remove p =>
    have hne : q ≠ p := Ne.symm (beq_eq_false_iff_ne.mp h)
    rw [applyOp_remove_fst]
    simp [updFS, hne]

lemma runOps_fst_cons (op : FileOp) (rest : List FileOp) (fs : FsState) :
    (runOps (op :: rest) fs).1 = (runOps rest (applyOp fs op).1).1 := rfl

lemma untouchedRun (ops : List FileOp) (fs : FsState) (q : String)
    (h : ∀ op ∈ ops, touchesOp op q = false) :
    (runOps ops fs).1 q = fs q := by
  induction ops generalizing fs with
  | nil => rfl
  | cons op rest ih =>
    rw [runOps_fst_cons,
      ih _ (fun o ho => h o (List.mem_cons_of_mem _ ho))]
    exact applyOp_untouched fs op q (h op (List.mem_cons_self _ _))

lemma runOps_append_fst (l1 l2 : List FileOp) (fs : FsState) :
    (runOps (l1 ++ l2) fs).1 = (runOps l2 (runOps l1 fs).1).1 := by
  induction l1 generalizing fs with
  | nil => rfl
  | cons op rest ih =>
    show (runOps (op :: (rest ++ l2)) fs).1 = _
    rw [runOps_fst_cons, ih]
    rfl

lemma runOps_append_snd (l1 l2 : List FileOp) (fs : FsState) :
    (runOps (l1 ++ l2) fs).2 =
      (runOps l1 fs).2 ++ (runOps l2 (runOps l1 fs).1).2 := by
  induction l1 generalizing fs with
  | nil => rfl
  | cons op rest ih =>
    show (runOps (op :: (rest ++ l2)) fs).2 = _
    have hstep : (runOps (op :: (rest ++ l2)) fs).2 =
        (if (applyOp fs op).2 then [] else [op])
          ++ (runOps (rest ++ l2) (applyOp fs op).1).2 := rfl
    rw [hstep, ih, ← List.append_assoc]
    rfl

lemma applyOp_fail_fst (fs : FsState) (op : FileOp)
    (h : (applyOp fs op).2 = false) : (applyOp fs op).1 = fs := by
  cases op with
  | write p c => exact absurd h (by simp [applyOp])
  | copy src dst =>
    simp only [applyOp] at h ⊢
    cases hs : fs src with
    | some c => rw [hs] at h; exact absurd h (by simp)
    | none => rfl
  | remove p =>
    simp only [applyOp] at h ⊢
    cases hs : fs p with
    | some c => rw [hs] at h; exact absurd h (by simp)
    | none => rfl

lemma applyOp_remove_fail (fs : FsState) (p : String) (h : fs p = none) :
    (applyOp fs (FileOp.remove p)).2 = false := by
  simp only [applyOp]
  rw [h]

lemma run_remove_sets_none (l1 l2 : List FileOp) (p : String) (fs : FsState)
    (h2 : ∀ op ∈ l2, touchesOp op p = false) :
    (runOps (l1 ++ FileOp.remove p :: l2) fs).1 p = none := by
  rw [runOps_append_fst, runOps_fst_cons, untouchedRun l2 _ p h2,
    applyOp_remove_fst]
  simp [updFS]

lemma remove_in_failures (l1 l2 : List FileOp) (p : String) (fs : FsState)
    (h : (runOps l1 fs).1 p = none) :
    FileOp.remove p ∈ (runOps (l1 ++ FileOp.remove p :: l2) fs).2 := by
  rw [runOps_append_snd]
  apply List.mem_append_right
  have hfail : (applyOp (runOps l1 fs).1 (FileOp.remove p)).2 = false :=
    applyOp_remove_fail _ _ h
  show FileOp.remove p ∈
    (if (applyOp (runOps l1 fs).1 (FileOp.remove p)).2 then []
     else [FileOp.remove p])
      ++ (runOps l2 (applyOp (runOps l1 fs).1 (FileOp.remove p)).1).2
  rw [hfail]
  simp

lemma applyAssigns_cons (pr : String × Option String)
    (l : List (String × Option String)) (fs : FsState) :
    applyAssigns (pr :: l) fs = applyAssigns l (updFS fs pr.1 pr.2) := rfl

lemma applyAssigns_append (l1 l2 : List (String × Option String))
    (fs : FsState) :
    applyAssigns (l1 ++ l2) fs = applyAssigns l2 (applyAssigns l1 fs) := by
  unfold applyAssigns
  rw [List.foldl_append]

lemma lastAssign_cons (pr : String × Option String)
    (l : List (String × Option String)) (q : String) :
    lastAssign (pr :: l) q =
      (match lastAssign l q with
       | some v => some v
       | none => if pr.1 == q then some pr.2 else none) := by
  unfold lastAssign
  rw [List.reverse_cons, listFindAppend]
  cases hf : (l.reverse).find? (fun pr2 => pr2.1 == q) with
  | some x => rfl
  | none => cases hb : pr.1 == q <;> simp [List.find?, hb]

lemma applyAssigns_apply (l : List (String × Option String)) (fs : FsState)
    (q : String) :
    applyAssigns l fs q =
      (match lastAssign l q with
       | some v => v
       | none => fs q) := by
  induction l generalizing fs with
  | nil => rfl
  | cons pr rest ih =>
    rw [applyAssigns_cons, ih, lastAssign_cons]
    cases hl : lastAssign rest q with
    | some v => rfl
    | none =>
      cases hb : pr.1 == q with
      | true =>
        have hq : q = pr.1 := (beq_iff_eq.mp hb).symm
        simp [updFS, hq]
      | false =>
        have hq : q ≠ pr.1 := Ne.symm (beq_eq_false_iff_ne.mp hb)
        simp [updFS, hq]

lemma applyAssigns_idem (l : List (String × Option String)) (fs : FsState) :
    applyAssigns l (applyAssigns l fs) = applyAssigns l fs := by
  funext q
  rw [applyAssigns_apply l (applyAssigns l fs) q]
  cases hl : lastAssign l q with
  | some v => rw [applyAssigns_apply l fs q, hl]
  | none => rfl

lemma runOps_eq_applyAssigns (ops : List FileOp) (fs fs0 : FsState)
    (hagree : ∀ s ∈ copySrcsOf ops, fs s = fs0 s)
    (huntouched : ∀ s ∈ copySrcsOf ops, ∀ op ∈ ops, touchesOp op s = false) :
    (runOps ops fs).1 = applyAssigns (resolvedEffects ops fs0) fs := by
  induction ops generalizing fs with
  | nil => rfl
  | cons op rest ih =>
    rw [runOps_fst_cons]
    cases op with
    | write p c =>
      show (runOps rest (applyOp fs (FileOp.write p c)).1).1 =
        applyAssigns ((p, some c) :: resolvedEffects rest fs0) fs
      rw [applyAssigns_cons]
      show (runOps rest (updFS fs p (some c))).1 = _
      apply ih
      · intro s hs
        have hsm : s ∈ copySrcsOf (FileOp.write p c :: rest) := hs
        have ht : touchesOp (FileOp.write p c) s = false :=
          huntouched s hsm (FileOp.write p c) (List.mem_cons_self _ _)
        have hne : s ≠ p := Ne.symm (beq_eq_false_iff_ne.mp ht)
        rw [updFS_other fs p (some c) s hne]
        exact hagree s hsm
      · intro s hs op2 h2
        exact huntouched s hs op2 (List.mem_cons_of_mem _ h2)
    | copy src dst =>
      have hsrcm : src ∈ copySrcsOf (FileOp.copy src dst :: rest) :=
        List.mem_cons_self _ _
      have hsv : fs src = fs0 src := hagree src hsrcm
      show (runOps rest (applyOp fs (FileOp.copy src dst)).1).1 =
        applyAssigns
          ((match fs0 src with
            | some c => [(dst, some c)]
            | none => []) ++ resolvedEffects rest fs0) fs
      have hrest : ∀ s ∈ copySrcsOf rest,
          s ∈ copySrcsOf (FileOp.copy src dst :: rest) := by
        intro s hs
        exact List.mem_cons_of_mem _ hs
      cases hs0 : fs0 src with
      | some c =>
        have hop : applyOp fs (FileOp.copy src dst)
            = (updFS fs dst (some c), true) := by
          simp only [applyOp]
          rw [hsv, hs0]
        rw [hop, applyAssigns_append, applyAssigns_cons]
        show (runOps rest (updFS fs dst (some c))).1 =
          applyAssigns (resolvedEffects rest fs0)
            (applyAssigns [] (updFS fs dst (some c)))
        apply ih
        · intro s hs
          have ht : touchesOp (FileOp.copy src dst) s = false :=
            huntouched s (hrest s hs) (FileOp.copy src dst)
              (List.mem_cons_self _ _)
          have hne : s ≠ dst := Ne.symm (beq_eq_false_iff_ne.mp ht)
          rw [updFS_other fs dst (some c) s hne]
          exact hagree s (hrest s hs)
        · intro s hs op2 h2
          exact huntouched s (hrest s hs) op2 (List.mem_cons_of_mem _ h2)
      | none =>
        have hop : applyOp fs (FileOp.copy src dst) = (fs, false) := by
          simp only [applyOp]
          rw [hsv, hs0]
        rw [hop]
        show (runOps rest fs).1 =
          applyAssigns ([] ++ resolvedEffects rest fs0) fs
        rw [List.nil_append]
        apply ih
        · intro s hs
          exact hagree s (hrest s hs)
        · intro s hs op2 h2
          exact huntouched s (hrest s hs) op2 (List.mem_cons_of_mem _ h2)
    | remove p =>
      show (runOps rest (applyOp fs (FileOp.remove p)).1).1 =
        applyAssigns ((p, none) :: resolvedEffects rest fs0) fs
      rw [applyAssigns_cons, applyOp_remove_fst]
      apply ih
      · intro s hs
        have hsm : s ∈ copySrcsOf (FileOp.remove p :: rest) := hs
        have ht : touchesOp (FileOp.remove p) s = false :=
          huntouched s hsm (FileOp.remove p) (List.mem_cons_self _ _)
        have hne : s ≠ p := Ne.symm (beq_eq_false_iff_ne.mp ht)
        rw [updFS_other fs p none s hne]
        exact hagree s hsm
      · intro s hs op2 h2
        exact huntouched s hs op2 (List.mem_cons_of_mem _ h2)

lemma runOps_idempotent (ops : List FileOp) (fs : FsState)
    (h : ∀ s ∈ copySrcsOf ops, ∀ op ∈ ops, touchesOp op s = false) :
    (runOps ops ((runOps ops fs).1)).1 = (runOps ops fs).1 := by
  have hs1 : ∀ s ∈ copySrcsOf ops, (runOps ops fs).1 s = fs s := by
    intro s hs
    exact untouchedRun ops fs s (h s hs)
  have e1 : (runOps ops fs).1 = applyAssigns (resolvedEffects ops fs) fs :=
    runOps_eq_applyAssigns ops fs fs (fun s _ => rfl) h
  have e2 : (runOps ops ((runOps ops fs).1)).1 =
      applyAssigns (resolvedEffects ops fs) ((runOps ops fs).1) :=
    runOps_eq_applyAssigns ops ((runOps ops fs).1) fs hs1 h
  rw [e2]
  conv_lhs => rw [e1]
  rw [← e1, e1, applyAssigns_idem, ← e1]

lemma strAppendCancel (root a b : String) (h : root ++ a = root ++ b) :
    a = b := by
  obtain ⟨rd⟩ := root
  obtain ⟨ad⟩ := a
  obtain ⟨bd⟩ := b
  have hd : rd ++ ad = rd ++ bd := congrArg String.data h
  exact congrArg String.mk (List.append_cancel_left hd)

lemma strAppendBeqFalse (root a b : String) (h : a ≠ b) :
    ((root ++ a) == (root ++ b)) = false :=
  beq_eq_false_iff_ne.mpr (fun he => h (strAppendCancel root a b he))

lemma scaffold_remove_generic (l1 l2 : List FileOp) (p : String)
    (fs : FsState)
    (hA : ∀ op ∈ l1, touchesOp op p = false)
    (hB : ∀ op ∈ l2, touchesOp op p = false) :
    FileOp.remove p ∈
      (runOps (l1 ++ FileOp.remove p :: l2)
        ((runOps (l1 ++ FileOp.remove p :: l2) fs).1)).2 := by
  apply remove_in_failures
  rw [untouchedRun l1 _ p hA]
  exact run_remove_sets_none l1 l2 p fs hB

lemma scaffold_copySrcs (root : String) (b : Bool)
    (ev rd pk dp rcg vcg : String) :
    copySrcsOf (scaffoldFileOps root b ev rd pk dp rcg vcg) =
      [root ++ "/remix.init/gitignore"] := by
  cases b <;> simp [scaffoldFileOps, copySrcsOf]

lemma scaffold_untouched_src (root : String) (b : Bool)
    (ev rd pk dp rcg vcg : String) :
    ∀ op ∈ scaffoldFileOps root b ev rd pk dp rcg vcg,
      touchesOp op (root ++ "/remix.init/gitignore") = false := by
  intro op hop
  cases b
  · simp [scaffoldFileOps] at hop
    rcases hop with rfl | rfl | rfl | rfl | rfl | rfl | rfl | rfl | rfl | rfl <;>
      (simp only [touchesOp]; exact strAppendBeqFalse root _ _ (by decide))
  · simp [scaffoldFileOps] at hop
    rcases hop with rfl | rfl | rfl | rfl | rfl | rfl | rfl <;>
      (simp only [touchesOp]; exact strAppendBeqFalse root _ _ (by decide))

/-- C5: in the batched write/delete step, an operation that fails is
simply dropped: the resulting file system is the one obtained by
running every sibling operation (those queued before and after alike,
nothing cancelled or rolled back), the catch block logs nothing (the
log component is empty), and control still proceeds to the interactive
question flow. -/
theorem c5_batch_failure_swallowed (l1 l2 : List FileOp) (op : FileOp)
    (fs : FsState)
    (hfail : (applyOp ((runOps l1 fs).1) op).2 = false) :
    scaffoldBatchStep (l1 ++ op :: l2) fs =
      ((runOps (l1 ++ l2) fs).1, AfterBatch.proceedToQuestionFlow,
        ([] : List String)) := by
  unfold scaffoldBatchStep
  have hstate : (runOps (l1 ++ op :: l2) fs).1 =
      (runOps (l1 ++ l2) fs).1 := by
    rw [runOps_append_fst, runOps_append_fst, runOps_fst_cons,
      applyOp_fail_fst _ _ hfail]
  rw [hstate]

/-- C5 witness: deleting an absent path fails, the failure is dropped,
the sibling write still happens and the step proceeds to the question
flow with nothing logged. -/
theorem c5_batch_failure_swallowed_witness :
    (applyOp ((runOps ([] : List FileOp) emptyFS).1)
        (FileOp.remove "/gone")).2 = false
    ∧ scaffoldBatchStep
        ([] ++ FileOp.remove "/gone" :: [FileOp.write "/a" "x"]) emptyFS =
      ((runOps ([] ++ [FileOp.write "/a" "x"]) emptyFS).1,
        AfterBatch.proceedToQuestionFlow, ([] : List String)) :=
  ⟨rfl, c5_batch_failure_swallowed [] [FileOp.write "/a" "x"]
    (FileOp.remove "/gone") emptyFS rfl⟩

/-- C10: running the scaffold's batched write/delete step a second time
with the same computed contents and target paths reproduces the first
run's file system exactly (writes are pure overwrites, the copy reads
an untouched source, removals of already-removed paths change
nothing); the second run's removals of the three housekeeping paths
fail and show up among the failed operations, yet the step still
completes and proceeds to the question flow. -/
theorem c10_scaffold_batch_idempotent (root : String) (isTypeScript : Bool)
    (newEnvContent newReadme pkgManifest newDeployYml newRemixCfg
      newVitestCfg : String) (fs : FsState) :
    let L := scaffoldFileOps root isTypeScript newEnvContent newReadme
      pkgManifest newDeployYml newRemixCfg newVitestCfg
    let s1 := (runOps L fs).1
    (runOps L s1).1 = s1
    ∧ FileOp.remove (root ++ "/.github/ISSUE_TEMPLATE") ∈ (runOps L s1).2
    ∧ FileOp.remove (root ++ "/.github/dependabot.yml") ∈ (runOps L s1).2
    ∧ FileOp.remove (root ++ "/.github/PULL_REQUEST_TEMPLATE.md")
        ∈ (runOps L s1).2
    ∧ (scaffoldBatchStep L s1).2.1 = AfterBatch.proceedToQuestionFlow := by
  intro L s1
  have hidem : (runOps L s1).1 = s1 := by
    apply runOps_idempotent
    intro s hs op hop
    rw [scaffold_copySrcs, List.mem_singleton] at hs
    subst hs
    exact scaffold_untouched_src root isTypeScript _ _ _ _ _ _ op hop
  refine ⟨hidem, ?_, ?_, ?_, rfl⟩
  · cases isTypeScript
    · exact scaffold_remove_generic
        [FileOp.write (root ++ "/.env") newEnvContent,
         FileOp.write (root ++ "/README.md") newReadme,
         FileOp.write (root ++ "/package.json") pkgManifest,
         FileOp.copy (root ++ "/remix.init/gitignore") (root ++ "/.gitignore")]
        [FileOp.remove (root ++ "/.github/dependabot.yml"),
         FileOp.remove (root ++ "/.github/PULL_REQUEST_TEMPLATE.md"),
         FileOp.write (root ++ "/.github/workflows/deploy.yml") newDeployYml,
         FileOp.write (root ++ "/remix.config.js") newRemixCfg,
         FileOp.write (root ++ "/vitest.config.js") newVitestCfg]
        (root ++ "/.github/ISSUE_TEMPLATE") fs
        (by
          intro op hop
          fin_cases hop <;>
            (simp only [touchesOp]; exact strAppendBeqFalse root _ _ (by decide)))
        (by
          intro op hop
          fin_cases hop <;>
            (simp only [touchesOp]; exact strAppendBeqFalse root _ _ (by decide)))
    · exact scaffold_remove_generic
        [FileOp.write (root ++ "/.env") newEnvContent,
         FileOp.write (root ++ "/README.md") newReadme,
         FileOp.write (root ++ "/package.json") pkgManifest,
         FileOp.copy (root ++ "/remix.init/gitignore") (root ++ "/.gitignore")]
        [FileOp.remove (root ++ "/.github/dependabot.yml"),
         FileOp.remove (root ++ "/.github/PULL_REQUEST_TEMPLATE.md")]
        (root ++ "/.github/ISSUE_TEMPLATE") fs
        (by
          intro op hop
          fin_cases hop <;>
            (simp only [touchesOp]; exact strAppendBeqFalse root _ _ (by decide)))
        (by
          intro op hop
          fin_cases hop <;>
            (simp only [touchesOp]; exact strAppendBeqFalse root _ _ (by decide)))
  · cases isTypeScript
    · exact scaffold_remove_generic
        [FileOp.write (root ++ "/.env") newEnvContent,
         FileOp.write (root ++ "/README.md") newReadme,
         FileOp.write (root ++ "/package.json") pkgManifest,
         FileOp.copy (root ++ "/remix.init/gitignore") (root ++ "/.gitignore"),
         FileOp.remove (root ++ "/.github/ISSUE_TEMPLATE")]
        [FileOp.remove (root ++ "/.github/PULL_REQUEST_TEMPLATE.md"),
         FileOp.write (root ++ "/.github/workflows/deploy.yml") newDeployYml,
         FileOp.write (root ++ "/remix.config.js") newRemixCfg,
         FileOp.write (root ++ "/vitest.config.js") newVitestCfg]
        (root ++ "/.github/dependabot.yml") fs
        (by
          intro op hop
          fin_cases hop <;>
            (simp only [touchesOp]; exact strAppendBeqFalse root _ _ (by decide)))
        (by
          intro op hop
          fin_cases hop <;>
            (simp only [touchesOp]; exact strAppendBeqFalse root _ _ (by decide)))
    · exact scaffold_remove_generic
        [FileOp.write (root ++ "/.env") newEnvContent,
         FileOp.write (root ++ "/README.md") newReadme,
         FileOp.write (root ++ "/package.json") pkgManifest,
         FileOp.copy (root ++ "/remix.init/gitignore") (root ++ "/.gitignore"),
         FileOp.remove (root ++ "/.github/ISSUE_TEMPLATE")]
        [FileOp.remove (root ++ "/.github/PULL_REQUEST_TEMPLATE.md")]
        (root ++ "/.github/dependabot.yml") fs
        (by
          intro op hop
          fin_cases hop <;>
            (simp only [touchesOp]; exact strAppendBeqFalse root _ _ (by decide)))
        (by
          intro op hop
          fin_cases hop <;>
            (simp only [touchesOp]; exact strAppendBeqFalse root _ _ (by decide)))
  · cases isTypeScript
    · exact scaffold_remove_generic
        [FileOp.write (root ++ "/.env") newEnvContent,
         FileOp.write (root ++ "/README.md") newReadme,
         FileOp.write (root ++ "/package.json") pkgManifest,
         FileOp.copy (root ++ "/remix.init/gitignore") (root ++ "/.gitignore"),
         FileOp.remove (root ++ "/.github/ISSUE_TEMPLATE"),
         FileOp.remove (root ++ "/.github/dependabot.yml")]
        [FileOp.write (root ++ "/.github/workflows/deploy.yml") newDeployYml,
         FileOp.write (root ++ "/remix.config.js") newRemixCfg,
         FileOp.write (root ++ "/vitest.config.js") newVitestCfg]
        (root ++ "/.github/PULL_REQUEST_TEMPLATE.md") fs
        (by
          intro op hop
          fin_cases hop <;>
            (simp only [touchesOp]; exact strAppendBeqFalse root _ _ (by decide)))
        (by
          intro op hop
          fin_cases hop <;>
            (simp only [touchesOp]; exact strAppendBeqFalse root _ _ (by decide)))
    · exact scaffold_remove_generic
        [FileOp.write (root ++ "/.env") newEnvContent,
         FileOp.write (root ++ "/README.md") newReadme,
         FileOp.write (root ++ "/package.json") pkgManifest,
         FileOp.copy (root ++ "/remix.init/gitignore") (root ++ "/.gitignore"),
         FileOp.remove (root ++ "/.github/ISSUE_TEMPLATE"),
         FileOp.remove (root ++ "/.github/dependabot.yml")]
        ([] : List FileOp)
        (root ++ "/.github/PULL_REQUEST_TEMPLATE.md") fs
        (by
          intro op hop
          fin_cases hop <;>
            (simp only [touchesOp]; exact strAppendBeqFalse root _ _ (by decide)))
        (by
          intro op hop
          cases hop)
